import Mathlib

/-!
Verification of the key-number store in `src/scripts/tools.py`
(`update_key_number`), the merge-and-persist utility shared by the
vaccine-demand and vaccine-supply pipelines.

The embedding models:
* JSON values as parsed/serialized by Python's `json` module (`Json`);
  objects carry their entries as an ordered association list, matching
  CPython dicts, which preserve insertion order.  Numeric literals are
  kept as their source text: no claim depends on numeric values, and the
  store's documents hold only string values.
* the file at `path` as a `FileState`: absent, present-but-unparseable,
  or present with a parsed JSON value.  Python's `json.load` is
  deterministic, so a present parseable file is fully described by its
  parse together with the serializer `dumpsIndent4` (the file bytes
  written by `json.dump(data, f, indent=4)`).
* `update_key_number` as a state transformer returning the final file
  state and the exception (if any) that propagated to the caller.
-/

namespace VaccineKeyNumbers

/-- A JSON value.  `num` keeps the numeric literal's text (CPython float
formatting is irrelevant to every claim: store values are strings).
`obj` entries are in insertion order, as in a CPython dict. -/
inductive Json where
  | null : Json
  | bool (b : Bool) : Json
  | num (lit : String) : Json
  | str (s : String) : Json
  | arr (elems : List Json) : Json
  | obj (entries : List (String × Json)) : Json

/-- The entry list of a Python dict holding JSON data. -/
abbrev Entries := List (String × Json)

/-- The keys of a dict, in insertion order (`dict.keys()`). -/
def keysOf (es : Entries) : List String := es.map Prod.fst

/-- Dict lookup `d[k]` (first occurrence; a real CPython dict never holds
duplicate keys, so the first occurrence is the only one). -/
def getVal : Entries → String → Option Json
  | [], _ => none
  | (k', v) :: es, k => if k' = k then some v else getVal es k

/-- Dict assignment `d[k] = v`: an existing key keeps its position and
gets the new value; a new key is appended at the end.  This is CPython's
insertion-order-preserving dict update. -/
def setKey : Entries → String → Json → Entries
  | [], k, v => [(k, v)]
  | (k', v') :: es, k, v =>
      if k' = k then (k', v) :: es else (k', v') :: setKey es k v

/-- `for k in new_dict.keys(): data[k] = new_dict[k]`
(lines 40-41 of `tools.py`): fold dict assignment over the updates in
their insertion order. -/
def mergeDict (data upd : Entries) : Entries :=
  upd.foldl (fun d kv => setKey d kv.1 kv.2) data

/-! ### Serialization: `json.dump(data, f, indent=4)`

CPython with `indent=4` and default separators `(",", ": ")` and
`ensure_ascii=True` writes containers one element per line, each line
prefixed by `4 * depth` spaces; empty containers print inline. -/

/-- `4 * lvl` spaces of indentation. -/
def pad (lvl : Nat) : String := String.join (List.replicate lvl "    ")

/-- Lower-case hex digit, as CPython emits in `\uXXXX` escapes. -/
def hexDigit (n : Nat) : Char :=
  if n < 10 then Char.ofNat (48 + n) else Char.ofNat (87 + n)

/-- Four-digit lower-case hex. -/
def hex4 (n : Nat) : String :=
  String.mk [hexDigit (n / 4096 % 16), hexDigit (n / 256 % 16),
             hexDigit (n / 16 % 16), hexDigit (n % 16)]

/-- CPython `json` string escaping with `ensure_ascii=True`: printable
ASCII other than `"` and backslash is literal; the short escapes cover
the usual control characters; everything else becomes `\uXXXX`, with a
surrogate pair above U+FFFF. -/
def escapeChar (c : Char) : String :=
  if c = '"' then "\\\""
  else if c = '\\' then "\\\\"
  else if c = '\n' then "\\n"
  else if c = '\r' then "\\r"
  else if c = '\t' then "\\t"
  else if c.toNat = 8 then "\\b"
  else if c.toNat = 12 then "\\f"
  else if 32 ≤ c.toNat ∧ c.toNat ≤ 126 then String.singleton c
  else if c.toNat < 65536 then "\\u" ++ hex4 c.toNat
  else
    "\\u" ++ hex4 (55296 + (c.toNat - 65536) / 1024) ++
    "\\u" ++ hex4 (56320 + (c.toNat - 65536) % 1024)

/-- A JSON string literal: the escaped characters between double quotes. -/
def quoteString (s : String) : String :=
  "\"" ++ String.join (s.data.map escapeChar) ++ "\""

mutual

/-- Serialize a value at nesting depth `lvl`, as CPython
`json.dump(-, f, indent=4)` does. -/
def dumpsAt (lvl : Nat) : Json → String
  | .null => "null"
  | .bool true => "true"
  | .bool false => "false"
  | .num lit => lit
  | .str s => quoteString s
  | .arr [] => "[]"
  | .arr (x :: xs) =>
      "[\n" ++ String.intercalate ",\n" (dumpsList (lvl + 1) (x :: xs)) ++
      "\n" ++ pad lvl ++ "]"
  | .obj [] => "\x7b\x7d"
  | .obj (kv :: es) =>
      "\x7b\n" ++ String.intercalate ",\n" (dumpsEntries (lvl + 1) (kv :: es)) ++
      "\n" ++ pad lvl ++ "\x7d"

/-- One output line per array element, at depth `lvl`. -/
def dumpsList (lvl : Nat) : List Json → List String
  | [] => []
  | x :: xs => (pad lvl ++ dumpsAt lvl x) :: dumpsList lvl xs

/-- One output line per object entry (`"key": value`), at depth `lvl`. -/
def dumpsEntries (lvl : Nat) : Entries → List String
  | [] => []
  | (k, v) :: es => (pad lvl ++ quoteString k ++ ": " ++ dumpsAt lvl v) :: dumpsEntries lvl es

end

/-- The bytes `json.dump(j, f, indent=4)` writes. -/
def dumpsIndent4 (j : Json) : String := dumpsAt 0 j

/-! ### The file at `path`, and `update_key_number` -/

/-- The state of the file at `path`.  `invalid raw` is a present file
whose bytes `raw` are not valid JSON; `valid j` is a present file that
parses (deterministically) to `j`. -/
inductive FileState where
  | absent : FileState
  | invalid (raw : String) : FileState
  | valid (doc : Json) : FileState

/-- The exceptions `update_key_number` can let escape on well-typed
input: `json.load`'s `JSONDecodeError` and the `TypeError` raised by
item assignment on a non-dict. -/
inductive PyError where
  | parseError : PyError
  | typeError : PyError
deriving DecidableEq, Repr

/-- `update_key_number(path, new_dict)` (`tools.py` lines 30-46) as a
transformer of the file state at `path`, returning the final state and
the exception (if any) that propagated:

* absent file: `json.dump({}, f)` bootstraps `{}`, `json.load` then
  yields the empty dict, the loop merges `new_dict` into it, and
  `json.dump(data, f, indent=4)` persists the result;
* present but unparseable: `json.load` raises before any write, so the
  file keeps its bytes;
* parsed dict: the loop assigns every update key in order, and the
  result is written back;
* parsed non-dict: with no updates the loop body never runs and the
  value is re-serialized unchanged; otherwise the first assignment
  `data[k] = new_dict[k]` raises `TypeError` before any write. -/
def update_key_number (st : FileState) (new_dict : Entries) :
    FileState × Option PyError :=
  match st with
  | .absent => (.valid (.obj (mergeDict [] new_dict)), none)
  | .invalid raw => (.invalid raw, some .parseError)
  | .valid (.obj es) => (.valid (.obj (mergeDict es new_dict)), none)
  | .valid j => if new_dict.isEmpty then (.valid j, none) else (.valid j, some .typeError)

/-- The mapping content of the persisted document: `some v` when the
file holds a JSON object binding `k` to `v`. -/
def docGet (st : FileState) (k : String) : Option Json :=
  match st with
  | .valid (.obj es) => getVal es k
  | _ => none

/-- The bytes of the file: the raw bytes of an unparseable file, and the
`indent=4` serialization for a file `update_key_number` has written
(every `valid` state produced by its final `json.dump` has exactly these
bytes). -/
def FileState.serialized : FileState → Option String
  | .absent => none
  | .invalid raw => some raw
  | .valid j => some (dumpsIndent4 j)

/-- Well-formedness of a file state: a parsed document that is an object
has no duplicate keys (CPython `json.load` builds a dict, so parsed
objects never carry duplicates). -/
def FileState.WF : FileState → Prop
  | .valid (.obj es) => (keysOf es).Nodup
  | _ => True

/-! ### Dict lemmas -/

theorem keysOf_nil : keysOf [] = [] := rfl

theorem keysOf_cons (k : String) (v : Json) (es : Entries) :
    keysOf ((k, v) :: es) = k :: keysOf es := rfl

theorem keysOf_append (a b : Entries) :
    keysOf (a ++ b) = keysOf a ++ keysOf b := List.map_append _ a b

theorem getVal_eq_none_iff (es : Entries) (k : String) :
    getVal es k = none ↔ k ∉ keysOf es := by
  induction es with
  | nil => simp [getVal, keysOf]
  | cons kv es ih =>
      obtain ⟨k', v⟩ := kv
      rw [keysOf_cons, List.mem_cons, getVal]
      by_cases h : k' = k
      · subst h; simp
      · have h' : ¬ k = k' := fun hh => h hh.symm
        simp [h, h', ih]

theorem mem_keysOf_iff_getVal (es : Entries) (k : String) :
    k ∈ keysOf es ↔ ∃ v, getVal es k = some v := by
  rcases hg : getVal es k with _ | v
  · simp [hg, (getVal_eq_none_iff es k).1 hg]
  · have hk : k ∈ keysOf es := by
      by_contra hk
      rw [← getVal_eq_none_iff] at hk
      rw [hk] at hg
      cases hg
    simp [hg, hk]

theorem getVal_setKey (es : Entries) (k k' : String) (v : Json) :
    getVal (setKey es k v) k' = if k = k' then some v else getVal es k' := by
  induction es with
  | nil => simp [setKey, getVal]
  | cons kv es ih =>
      obtain ⟨k0, v0⟩ := kv
      by_cases h0 : k0 = k
      · subst h0
        rw [setKey, if_pos rfl]
        by_cases h1 : k0 = k' <;> simp [getVal, h1]
      · rw [setKey, if_neg h0, getVal]
        by_cases h1 : k0 = k'
        · have hk : ¬ k = k' := fun hh => h0 (h1.trans hh.symm)
          rw [if_pos h1, if_neg hk, getVal, if_pos h1]
        · rw [if_neg h1, ih]
          by_cases h2 : k = k'
          · rw [if_pos h2, if_pos h2]
          · rw [if_neg h2, if_neg h2, getVal, if_neg h1]

theorem setKey_of_not_mem (es : Entries) (k : String) (v : Json)
    (h : k ∉ keysOf es) : setKey es k v = es ++ [(k, v)] := by
  induction es with
  | nil => rfl
  | cons kv es ih =>
      obtain ⟨k0, v0⟩ := kv
      rw [keysOf_cons, List.mem_cons] at h
      push_neg at h
      simp [setKey, Ne.symm h.1, ih h.2]

theorem keysOf_setKey_of_mem (es : Entries) (k : String) (v : Json)
    (h : k ∈ keysOf es) : keysOf (setKey es k v) = keysOf es := by
  induction es with
  | nil => simp [keysOf] at h
  | cons kv es ih =>
      obtain ⟨k0, v0⟩ := kv
      by_cases h0 : k0 = k
      · simp [setKey, h0, keysOf]
      · rw [keysOf_cons, List.mem_cons] at h
        rcases h with h | h
        · exact absurd h.symm h0
        · simp [setKey, h0, keysOf_cons, ih h]

theorem mergeDict_nil_right (data : Entries) : mergeDict data [] = data := rfl

theorem mergeDict_cons (data : Entries) (k : String) (v : Json) (upd : Entries) :
    mergeDict data ((k, v) :: upd) = mergeDict (setKey data k v) upd := rfl

theorem getVal_mergeDict_of_not_mem (data upd : Entries) (k : String)
    (h : k ∉ keysOf upd) : getVal (mergeDict data upd) k = getVal data k := by
  induction upd generalizing data with
  | nil => rfl
  | cons kv upd ih =>
      obtain ⟨k0, v0⟩ := kv
      rw [keysOf_cons, List.mem_cons] at h
      push_neg at h
      rw [mergeDict_cons, ih _ h.2, getVal_setKey, if_neg (fun hh => h.1 hh.symm)]

theorem getVal_mergeDict_of_getVal (data upd : Entries) (k : String) (v : Json)
    (hU : (keysOf upd).Nodup) (h : getVal upd k = some v) :
    getVal (mergeDict data upd) k = some v := by
  induction upd generalizing data with
  | nil => simp [getVal] at h
  | cons kv upd ih =>
      obtain ⟨k0, v0⟩ := kv
      rw [keysOf_cons, List.nodup_cons] at hU
      by_cases h0 : k0 = k
      · subst h0
        rw [getVal, if_pos rfl] at h
        rw [mergeDict_cons, getVal_mergeDict_of_not_mem _ _ _ hU.1, getVal_setKey,
          if_pos rfl]
        exact h
      · rw [getVal, if_neg h0] at h
        rw [mergeDict_cons]
        exact ih _ hU.2 h

theorem keysOf_mergeDict (data upd : Entries) (hU : (keysOf upd).Nodup) :
    keysOf (mergeDict data upd)
      = keysOf data ++ (keysOf upd).filter (fun k => decide (k ∉ keysOf data)) := by
  induction upd generalizing data with
  | nil => simp [mergeDict_nil_right, keysOf]
  | cons kv upd ih =>
      obtain ⟨k0, v0⟩ := kv
      rw [keysOf_cons, List.nodup_cons] at hU
      rw [mergeDict_cons, ih _ hU.2]
      by_cases h0 : k0 ∈ keysOf data
      · rw [keysOf_setKey_of_mem _ _ _ h0, keysOf_cons, List.filter_cons]
        simp [h0]
      · have hset : keysOf (setKey data k0 v0) = keysOf data ++ [k0] := by
          rw [setKey_of_not_mem _ _ _ h0, keysOf_append]
          rfl
        have hp : decide (k0 ∉ keysOf data) = true := by
          simpa using h0
        rw [hset, keysOf_cons, List.filter_cons, if_pos hp, List.append_assoc,
          List.singleton_append]
        congr 2
        apply List.filter_congr
        intro x hx
        have hxk : ¬ x = k0 := fun he => hU.1 (he ▸ hx)
        rw [decide_eq_decide]
        simp [List.mem_append, hxk]

theorem mergeDict_append_of_disjoint (data upd : Entries)
    (hU : (keysOf upd).Nodup) (hd : ∀ k ∈ keysOf upd, k ∉ keysOf data) :
    mergeDict data upd = data ++ upd := by
  induction upd generalizing data with
  | nil => simp [mergeDict_nil_right]
  | cons kv upd ih =>
      obtain ⟨k0, v0⟩ := kv
      rw [keysOf_cons, List.nodup_cons] at hU
      have h0 : k0 ∉ keysOf data := hd k0 (by rw [keysOf_cons]; exact List.mem_cons_self _ _)
      rw [mergeDict_cons, setKey_of_not_mem _ _ _ h0, ih _ hU.2, List.append_assoc,
        List.singleton_append]
      intro k hk
      rw [keysOf_append, List.mem_append]
      push_neg
      refine ⟨hd k (by rw [keysOf_cons]; exact List.mem_cons_of_mem _ hk), ?_⟩
      intro hmem
      rw [keysOf_cons, keysOf_nil, List.mem_singleton] at hmem
      exact hU.1 (hmem ▸ hk)

theorem mergeDict_nil_left (upd : Entries) (hU : (keysOf upd).Nodup) :
    mergeDict [] upd = upd := by
  rw [mergeDict_append_of_disjoint [] upd hU (by simp [keysOf]), List.nil_append]

theorem setKey_getVal_self (es : Entries) (k : String) (v : Json)
    (h : getVal es k = some v) : setKey es k v = es := by
  induction es with
  | nil => cases h
  | cons kv es ih =>
      obtain ⟨k0, v0⟩ := kv
      by_cases h0 : k0 = k
      · rw [getVal, if_pos h0] at h
        injection h with h
        rw [setKey, if_pos h0, h]
      · rw [getVal, if_neg h0] at h
        rw [setKey, if_neg h0, ih h]

theorem getVal_of_mem (es : Entries) (k : String) (v : Json)
    (hE : (keysOf es).Nodup) (h : (k, v) ∈ es) : getVal es k = some v := by
  induction es with
  | nil => cases h
  | cons kv es ih =>
      obtain ⟨k0, v0⟩ := kv
      rw [keysOf_cons, List.nodup_cons] at hE
      rcases List.mem_cons.1 h with h | h
      · injection h with h1 h2
        rw [getVal, if_pos h1.symm, h2]
      · have hk : k ∈ keysOf es := by
          rw [keysOf]
          exact List.mem_map_of_mem Prod.fst h
        have h0 : ¬ k0 = k := fun he => hE.1 (he ▸ hk)
        rw [getVal, if_neg h0, ih hE.2 h]

theorem mergeDict_fix (data upd : Entries)
    (h : ∀ kv ∈ upd, getVal data kv.1 = some kv.2) : mergeDict data upd = data := by
  induction upd with
  | nil => rfl
  | cons kv upd ih =>
      obtain ⟨k0, v0⟩ := kv
      rw [mergeDict_cons, setKey_getVal_self _ _ _ (h (k0, v0) (List.mem_cons_self _ _))]
      exact ih fun kv hkv => h kv (List.mem_cons_of_mem _ hkv)

theorem mergeDict_idem (data upd : Entries) (hU : (keysOf upd).Nodup) :
    mergeDict (mergeDict data upd) upd = mergeDict data upd := by
  apply mergeDict_fix
  intro kv hkv
  exact getVal_mergeDict_of_getVal _ _ _ _ hU (getVal_of_mem _ _ _ hU hkv)

theorem getVal_mergeDict_comm (data U1 U2 : Entries)
    (h1 : (keysOf U1).Nodup) (h2 : (keysOf U2).Nodup)
    (hd : (keysOf U1).Disjoint (keysOf U2)) (k : String) :
    getVal (mergeDict (mergeDict data U1) U2) k
      = getVal (mergeDict (mergeDict data U2) U1) k := by
  by_cases m1 : k ∈ keysOf U1
  · have m2 : k ∉ keysOf U2 := hd m1
    obtain ⟨v, hv⟩ := (mem_keysOf_iff_getVal _ _).1 m1
    rw [getVal_mergeDict_of_not_mem _ _ _ m2, getVal_mergeDict_of_getVal _ _ _ _ h1 hv,
      getVal_mergeDict_of_getVal _ _ _ _ h1 hv]
  · by_cases m2 : k ∈ keysOf U2
    · obtain ⟨v, hv⟩ := (mem_keysOf_iff_getVal _ _).1 m2
      rw [getVal_mergeDict_of_getVal _ _ _ _ h2 hv, getVal_mergeDict_of_not_mem _ _ _ m1,
        getVal_mergeDict_of_getVal _ _ _ _ h2 hv]
    · rw [getVal_mergeDict_of_not_mem _ _ _ m2, getVal_mergeDict_of_not_mem _ _ _ m1,
        getVal_mergeDict_of_not_mem _ _ _ m1, getVal_mergeDict_of_not_mem _ _ _ m2]

theorem keysOf_mergeDict_perm (data U1 U2 : Entries)
    (h1 : (keysOf U1).Nodup) (h2 : (keysOf U2).Nodup)
    (hd : (keysOf U1).Disjoint (keysOf U2)) :
    (keysOf (mergeDict (mergeDict data U1) U2)).Perm
      (keysOf (mergeDict (mergeDict data U2) U1)) := by
  rw [keysOf_mergeDict (mergeDict data U1) U2 h2, keysOf_mergeDict data U1 h1,
    keysOf_mergeDict (mergeDict data U2) U1 h1, keysOf_mergeDict data U2 h2]
  have e2 : (keysOf U2).filter
        (fun k => decide (k ∉ keysOf data ++
          (keysOf U1).filter (fun k => decide (k ∉ keysOf data))))
      = (keysOf U2).filter (fun k => decide (k ∉ keysOf data)) := by
    apply List.filter_congr
    intro x hx
    rw [decide_eq_decide, List.mem_append]
    have hx1 : x ∉ (keysOf U1).filter (fun k => decide (k ∉ keysOf data)) :=
      fun hmem => hd (List.mem_of_mem_filter hmem) hx
    constructor
    · exact fun h hm => h (Or.inl hm)
    · rintro h (hm | hm)
      · exact h hm
      · exact hx1 hm
  have e1 : (keysOf U1).filter
        (fun k => decide (k ∉ keysOf data ++
          (keysOf U2).filter (fun k => decide (k ∉ keysOf data))))
      = (keysOf U1).filter (fun k => decide (k ∉ keysOf data)) := by
    apply List.filter_congr
    intro x hx
    rw [decide_eq_decide, List.mem_append]
    have hx2 : x ∉ (keysOf U2).filter (fun k => decide (k ∉ keysOf data)) :=
      fun hmem => hd hx (List.mem_of_mem_filter hmem)
    constructor
    · exact fun h hm => h (Or.inl hm)
    · rintro h (hm | hm)
      · exact h hm
      · exact hx2 hm
  rw [e1, e2, List.append_assoc, List.append_assoc]
  exact List.Perm.append_left _ List.perm_append_comm

/-! ### Views of the final state -/

/-- Two file states carry the same persisted document: identical states,
except that parsed objects may list their (identical) key-value pairs in
a different order. -/
def FileState.sameDoc (s1 s2 : FileState) : Prop :=
  match s1, s2 with
  | .valid (.obj e1), .valid (.obj e2) =>
      (keysOf e1).Perm (keysOf e2) ∧ ∀ k, getVal e1 k = getVal e2 k
  | t1, t2 => t1 = t2

/-- Is the parsed value a JSON object (a Python dict)? -/
def Json.isObject : Json → Bool
  | .obj _ => true
  | _ => false

theorem update_valid_nonobject (j : Json) (hj : j.isObject = false) (U : Entries) :
    (update_key_number (.valid j) U).1 = .valid j := by
  cases j with
  | obj es => cases hj
  | null => cases U <;> rfl
  | bool b => cases b <;> cases U <;> rfl
  | num lit => cases U <;> rfl
  | str s => cases U <;> rfl
  | arr elems => cases U <;> rfl

/-! ### Serialization shape -/

theorem pad_zero : pad 0 = "" := rfl

theorem pad_one : pad 1 = "    " := rfl

theorem dumpsEntries_eq_map (lvl : Nat) (es : Entries) :
    dumpsEntries lvl es
      = es.map (fun kv => pad lvl ++ quoteString kv.1 ++ ": " ++ dumpsAt lvl kv.2) := by
  induction es with
  | nil => rfl
  | cons kv es ih =>
      obtain ⟨k, v⟩ := kv
      rw [dumpsEntries, ih, List.map_cons]

theorem dumpsIndent4_obj_of_ne_nil (es : Entries) (h : es ≠ []) :
    dumpsIndent4 (.obj es)
      = "\x7b\n" ++ String.intercalate ",\n"
          (es.map (fun kv => "    " ++ quoteString kv.1 ++ ": " ++ dumpsAt 1 kv.2))
        ++ "\n\x7d" := by
  match es, h with
  | kv :: es, _ =>
      rw [dumpsIndent4, dumpsAt, dumpsEntries_eq_map]
      have hmap : ∀ kv : String × Json,
          pad 1 ++ quoteString kv.1 ++ ": " ++ dumpsAt 1 kv.2
            = "    " ++ quoteString kv.1 ++ ": " ++ dumpsAt 1 kv.2 := by
        intro kv
        rw [pad_one]
      simp only [hmap]
      rw [pad_zero, String.append_empty, String.append_assoc]
      rfl

/-! ### Claims -/

/-- C1: Union/override semantics of merge: for every existing document
mapping `D1` at `path` and every updates mapping `U`,
`update_key_number(path, U)` persists a document whose key set is
`D1.keys() ∪ U.keys()`; every key of `U` maps to `U`'s value
(last-writer-wins, full replacement), and every key of `D1` not in `U`
keeps `D1`'s value. -/
theorem merge_union_override (D1 U : Entries)
    (hD : (keysOf D1).Nodup) (hU : (keysOf U).Nodup) :
    ∃ R : Entries,
      update_key_number (.valid (.obj D1)) U = (.valid (.obj R), none)
      ∧ (∀ k, k ∈ keysOf R ↔ k ∈ keysOf D1 ∨ k ∈ keysOf U)
      ∧ (∀ k v, getVal U k = some v → getVal R k = some v)
      ∧ (∀ k, k ∈ keysOf D1 → k ∉ keysOf U → getVal R k = getVal D1 k) := by
  refine ⟨mergeDict D1 U, rfl, ?_, ?_, ?_⟩
  · intro k
    rw [keysOf_mergeDict _ _ hU, List.mem_append, List.mem_filter]
    constructor
    · rintro (h | h)
      · exact Or.inl h
      · exact Or.inr h.1
    · rintro (h | h)
      · exact Or.inl h
      · by_cases hD1 : k ∈ keysOf D1
        · exact Or.inl hD1
        · exact Or.inr ⟨h, by simpa using hD1⟩
  · exact fun k v hv => getVal_mergeDict_of_getVal _ _ _ _ hU hv
  · exact fun k _ hk => getVal_mergeDict_of_not_mem _ _ _ hk

/-- Witness for C1 at `D1 = {"a": "10%"}`,
`U = {"a": "12%", "b": "5.0 million"}`. -/
theorem merge_union_override_witness :
    (keysOf [("a", Json.str "10%")]).Nodup
    ∧ (keysOf [("a", Json.str "12%"), ("b", Json.str "5.0 million")]).Nodup
    ∧ ∃ R : Entries,
        update_key_number (.valid (.obj [("a", Json.str "10%")]))
            [("a", Json.str "12%"), ("b", Json.str "5.0 million")]
          = (.valid (.obj R), none)
        ∧ (∀ k, k ∈ keysOf R ↔ k ∈ keysOf [("a", Json.str "10%")]
            ∨ k ∈ keysOf [("a", Json.str "12%"), ("b", Json.str "5.0 million")])
        ∧ (∀ k v, getVal [("a", Json.str "12%"), ("b", Json.str "5.0 million")] k = some v
            → getVal R k = some v)
        ∧ (∀ k, k ∈ keysOf [("a", Json.str "10%")]
            → k ∉ keysOf [("a", Json.str "12%"), ("b", Json.str "5.0 million")]
            → getVal R k = getVal [("a", Json.str "10%")] k) :=
  ⟨by decide, by decide, merge_union_override _ _ (by decide) (by decide)⟩

/-- C2: Bootstrap: merging a non-empty updates mapping `U` into a path
with no file first initializes the document as the empty mapping and
then merges, so the persisted document equals `U` exactly. -/
theorem merge_bootstrap (U : Entries) (hne : U ≠ []) (hU : (keysOf U).Nodup) :
    update_key_number .absent U = (.valid (.obj U), none) := by
  show (FileState.valid (.obj (mergeDict [] U)), (none : Option PyError)) = _
  rw [mergeDict_nil_left _ hU]

/-- Witness for C2 at `U = {"a": "10%"}`. -/
theorem merge_bootstrap_witness :
    (([("a", Json.str "10%")] : Entries) ≠ []
      ∧ (keysOf [("a", Json.str "10%")]).Nodup)
    ∧ update_key_number .absent [("a", Json.str "10%")]
        = (.valid (.obj [("a", Json.str "10%")]), none) :=
  ⟨⟨fun h => List.noConfusion h, by decide⟩,
    merge_bootstrap _ (fun h => List.noConfusion h) (by decide)⟩

/-- C3: Corruption handling and error atomicity: when the file exists
but its content is not valid JSON, `update_key_number` fails with a
parse error and the file keeps its prior content (it is not overwritten
with an empty document). -/
theorem merge_corrupt_parse_error (raw : String) (U : Entries) :
    update_key_number (.invalid raw) U = (.invalid raw, some .parseError) := rfl

/-- C5: Idempotence: for every starting file state and every updates
mapping, running `update_key_number` twice in succession leaves the
identical persisted outcome (state and error) as running it once. -/
theorem merge_idempotent (st : FileState) (U : Entries) (hU : (keysOf U).Nodup) :
    update_key_number (update_key_number st U).1 U = update_key_number st U := by
  cases st with
  | absent =>
      show (FileState.valid (.obj (mergeDict (mergeDict [] U) U)), (none : Option PyError))
        = (FileState.valid (.obj (mergeDict [] U)), (none : Option PyError))
      rw [mergeDict_idem _ _ hU]
  | invalid raw => rfl
  | valid j =>
      cases j with
      | obj es =>
          show (FileState.valid (.obj (mergeDict (mergeDict es U) U)), (none : Option PyError))
            = (FileState.valid (.obj (mergeDict es U)), (none : Option PyError))
          rw [mergeDict_idem _ _ hU]
      | null => cases U <;> rfl
      | bool b => cases U <;> rfl
      | num lit => cases U <;> rfl
      | str s => cases U <;> rfl
      | arr elems => cases U <;> rfl

/-- Witness for C5 from the existing document `{"a": "10%"}` with
`U = {"a": "12%"}`. -/
theorem merge_idempotent_witness :
    (keysOf [("a", Json.str "12%")]).Nodup
    ∧ update_key_number
        (update_key_number (.valid (.obj [("a", Json.str "10%")]))
          [("a", Json.str "12%")]).1 [("a", Json.str "12%")]
      = update_key_number (.valid (.obj [("a", Json.str "10%")]))
          [("a", Json.str "12%")] :=
  ⟨by decide, merge_idempotent _ _ (by decide)⟩

/-- C6: Order independence across pipelines: for every starting file
state and disjoint updates mappings `U1`, `U2`, merging `U1` then `U2`
persists the same document as merging `U2` then `U1`. -/
theorem merge_order_independent (st : FileState) (U1 U2 : Entries)
    (h1 : (keysOf U1).Nodup) (h2 : (keysOf U2).Nodup)
    (hd : (keysOf U1).Disjoint (keysOf U2)) :
    FileState.sameDoc
      (update_key_number (update_key_number st U1).1 U2).1
      (update_key_number (update_key_number st U2).1 U1).1 := by
  cases st with
  | absent =>
      show FileState.sameDoc (.valid (.obj (mergeDict (mergeDict [] U1) U2)))
        (.valid (.obj (mergeDict (mergeDict [] U2) U1)))
      exact ⟨keysOf_mergeDict_perm _ _ _ h1 h2 hd, getVal_mergeDict_comm _ _ _ h1 h2 hd⟩
  | invalid raw => exact rfl
  | valid j =>
      cases j with
      | obj es =>
          show FileState.sameDoc (.valid (.obj (mergeDict (mergeDict es U1) U2)))
            (.valid (.obj (mergeDict (mergeDict es U2) U1)))
          exact ⟨keysOf_mergeDict_perm _ _ _ h1 h2 hd, getVal_mergeDict_comm _ _ _ h1 h2 hd⟩
      | null =>
          simp only [update_valid_nonobject Json.null rfl]
          exact rfl
      | bool b =>
          simp only [update_valid_nonobject (Json.bool b) rfl]
          exact rfl
      | num lit =>
          simp only [update_valid_nonobject (Json.num lit) rfl]
          exact rfl
      | str s =>
          simp only [update_valid_nonobject (Json.str s) rfl]
          exact rfl
      | arr elems =>
          simp only [update_valid_nonobject (Json.arr elems) rfl]
          exact rfl

/-- Witness for C6 from the existing document `{"x": "0"}` with the
disjoint updates `{"a": "1"}` and `{"b": "2"}`. -/
theorem merge_order_independent_witness :
    ((keysOf [("a", Json.str "1")]).Nodup
      ∧ (keysOf [("b", Json.str "2")]).Nodup
      ∧ (keysOf [("a", Json.str "1")]).Disjoint (keysOf [("b", Json.str "2")]))
    ∧ FileState.sameDoc
        (update_key_number
          (update_key_number (.valid (.obj [("x", Json.str "0")]))
            [("a", Json.str "1")]).1 [("b", Json.str "2")]).1
        (update_key_number
          (update_key_number (.valid (.obj [("x", Json.str "0")]))
            [("b", Json.str "2")]).1 [("a", Json.str "1")]).1 := by
  have hdisj : (keysOf [("a", Json.str "1")]).Disjoint (keysOf [("b", Json.str "2")]) := by
    intro a ha hb
    simp [keysOf] at ha hb
    rw [ha] at hb
    exact absurd hb (by decide)
  exact ⟨⟨by decide, by decide, hdisj⟩,
    merge_order_independent _ _ _ (by decide) (by decide) hdisj⟩

/-- C4 counterexample: the serialized key order is NOT a function of the
document's key-value content alone.  Merging `{"a": "1"}` then
`{"b": "2"}` and merging `{"b": "2"}` then `{"a": "1"}` into a fresh
path persist documents with the same key set and the same value at every
key, yet different file bytes (`json.dump` without `sort_keys` writes
dict insertion order). -/
theorem serialized_key_order_history_dependent :
    ((update_key_number (update_key_number .absent [("a", Json.str "1")]).1
        [("b", Json.str "2")]).1
      = .valid (.obj [("a", Json.str "1"), ("b", Json.str "2")]))
    ∧ ((update_key_number (update_key_number .absent [("b", Json.str "2")]).1
        [("a", Json.str "1")]).1
      = .valid (.obj [("b", Json.str "2"), ("a", Json.str "1")]))
    ∧ (keysOf [("a", Json.str "1"), ("b", Json.str "2")]).Perm
        (keysOf [("b", Json.str "2"), ("a", Json.str "1")])
    ∧ getVal [("a", Json.str "1"), ("b", Json.str "2")] "a"
        = getVal [("b", Json.str "2"), ("a", Json.str "1")] "a"
    ∧ getVal [("a", Json.str "1"), ("b", Json.str "2")] "b"
        = getVal [("b", Json.str "2"), ("a", Json.str "1")] "b"
    ∧ (FileState.valid (.obj [("a", Json.str "1"), ("b", Json.str "2")])).serialized
        ≠ (FileState.valid (.obj [("b", Json.str "2"), ("a", Json.str "1")])).serialized :=
  ⟨rfl, rfl, by decide, rfl, rfl, by decide⟩

/-- C4 (amended): after every successful `update_key_number` call on an
existing JSON-object document, the result is written back with
fixed-width 4-space indentation, one key per line; the serialized key
order is the dict insertion order — existing keys keep their positions
and new keys are appended in updates order — which is deterministic for
a given merge history but not a function of the key-value content
alone. -/
theorem merge_serialization_amended (D U : Entries) (hU : (keysOf U).Nodup)
    (hne : mergeDict D U ≠ []) :
    update_key_number (.valid (.obj D)) U = (.valid (.obj (mergeDict D U)), none)
    ∧ keysOf (mergeDict D U)
        = keysOf D ++ (keysOf U).filter (fun k => decide (k ∉ keysOf D))
    ∧ (FileState.valid (.obj (mergeDict D U))).serialized
        = some ("\x7b\n" ++ String.intercalate ",\n"
            ((mergeDict D U).map
              (fun kv => "    " ++ quoteString kv.1 ++ ": " ++ dumpsAt 1 kv.2))
          ++ "\n\x7d") := by
  refine ⟨rfl, keysOf_mergeDict _ _ hU, ?_⟩
  show some (dumpsIndent4 (.obj (mergeDict D U))) = _
  rw [dumpsIndent4_obj_of_ne_nil _ hne]

/-- Witness for the amended C4 at `D = {"a": "1"}`, `U = {"b": "2"}`. -/
theorem merge_serialization_amended_witness :
    ((keysOf [("b", Json.str "2")]).Nodup
      ∧ mergeDict [("a", Json.str "1")] [("b", Json.str "2")] ≠ [])
    ∧ update_key_number (.valid (.obj [("a", Json.str "1")])) [("b", Json.str "2")]
        = (.valid (.obj (mergeDict [("a", Json.str "1")] [("b", Json.str "2")])), none)
    ∧ keysOf (mergeDict [("a", Json.str "1")] [("b", Json.str "2")])
        = keysOf [("a", Json.str "1")]
          ++ (keysOf [("b", Json.str "2")]).filter
              (fun k => decide (k ∉ keysOf [("a", Json.str "1")]))
    ∧ (FileState.valid
          (.obj (mergeDict [("a", Json.str "1")] [("b", Json.str "2")]))).serialized
        = some ("\x7b\n" ++ String.intercalate ",\n"
            ((mergeDict [("a", Json.str "1")] [("b", Json.str "2")]).map
              (fun kv => "    " ++ quoteString kv.1 ++ ": " ++ dumpsAt 1 kv.2))
          ++ "\n\x7d") := by
  have h := merge_serialization_amended [("a", Json.str "1")] [("b", Json.str "2")]
    (by decide) (fun h => List.noConfusion h)
  exact ⟨⟨by decide, fun h => List.noConfusion h⟩, h.1, h.2.1, h.2.2⟩

/-- C7: Empty updates do not corrupt: on an existing valid document the
call with an empty updates mapping is a no-op — it succeeds and the
persisted document's key-value content is unchanged. -/
theorem merge_empty_updates (D : Entries) :
    update_key_number (.valid (.obj D)) [] = (.valid (.obj D), none) := rfl

/-- C8: Non-object document content: when the file holds valid JSON
whose top-level value is not an object and the updates are non-empty,
the call fails with a type error raised after parsing (on the first
update assignment), and the file content is unchanged because no write
happened. -/
theorem merge_nonobject_type_error (j : Json) (U : Entries)
    (hj : j.isObject = false) (hne : U ≠ []) :
    update_key_number (.valid j) U = (.valid j, some .typeError) := by
  cases j with
  | obj es => exact Bool.noConfusion hj
  | null =>
      cases U with
      | nil => exact absurd rfl hne
      | cons kv U => rfl
  | bool b =>
      cases U with
      | nil => exact absurd rfl hne
      | cons kv U => rfl
  | num lit =>
      cases U with
      | nil => exact absurd rfl hne
      | cons kv U => rfl
  | str s =>
      cases U with
      | nil => exact absurd rfl hne
      | cons kv U => rfl
  | arr elems =>
      cases U with
      | nil => exact absurd rfl hne
      | cons kv U => rfl

/-- Witness for C8 at the array document `[]` with `U = {"a": "1"}`. -/
theorem merge_nonobject_type_error_witness :
    ((Json.arr []).isObject = false ∧ ([("a", Json.str "1")] : Entries) ≠ [])
    ∧ update_key_number (.valid (.arr [])) [("a", Json.str "1")]
        = (.valid (.arr []), some .typeError) :=
  ⟨⟨rfl, fun h => List.noConfusion h⟩,
    merge_nonobject_type_error _ _ rfl (fun h => List.noConfusion h)⟩

/-- C9: Determinism: two runs with identical prior file state and
identical updates (same pairs in the same insertion order) produce
identical outcomes — the resulting file state and surfaced error are
functions of the inputs alone. -/
theorem update_deterministic (st st' : FileState) (U U' : Entries)
    (hst : st = st') (hU : U = U') :
    update_key_number st U = update_key_number st' U' := by
  rw [hst, hU]

/-- Witness for C9 at the absent state with `U = {"a": "1"}`. -/
theorem update_deterministic_witness :
    ((FileState.absent = FileState.absent)
      ∧ ([("a", Json.str "1")] : Entries) = [("a", Json.str "1")])
    ∧ update_key_number .absent [("a", Json.str "1")]
        = update_key_number .absent [("a", Json.str "1")] :=
  ⟨⟨rfl, rfl⟩, update_deterministic _ _ _ _ rfl rfl⟩

/-- C10: Bootstrap happens even for empty updates: on a path with no
file, the call with empty updates succeeds and leaves a file whose
content is the serialized empty mapping. -/
theorem bootstrap_empty_updates :
    update_key_number .absent [] = (.valid (.obj []), none)
    ∧ (update_key_number .absent []).1.serialized = some "\x7b\x7d" :=
  ⟨rfl, rfl⟩

end VaccineKeyNumbers

